import Mathlib

/-!
# Verification of the commet version-bump core

Shallow embedding of the commit-message parser (`internal/parser/parser.go`),
the bump resolver and version calculator (`internal/version/version.go`) and
the bump-rule lookup (`internal/config/config.go`).  Go strings are modelled
as lists of runes (`List Char`).  The external Masterminds semver library is
modelled from the spec's description of its interface (each such definition
says so in its doc comment).
-/

set_option maxRecDepth 4000

namespace Commet

/-! ## Character classes and Go string helpers -/

/-- ASCII word character, Go regexp (RE2) `\w` = `[0-9A-Za-z_]`. -/
def wordChar (c : Char) : Bool := c.isAlphanum || c = '_'

/-- Whitespace removed by Go `strings.TrimSpace` (`unicode.IsSpace`): space,
tab, newline, vertical tab, form feed, carriage return, NEL, NBSP (the rarer
Unicode `Zs` code points do not occur in any input considered here). -/
def goSpace (c : Char) : Bool :=
  c = ' ' || c = '\t' || c = '\n' || c = Char.ofNat 11 || c = Char.ofNat 12 ||
  c = '\r' || c = Char.ofNat 133 || c = Char.ofNat 160

/-- Go regexp (RE2) `\s` character class: `[\t\n\f\r ]`. -/
def reSpace (c : Char) : Bool :=
  c = '\t' || c = '\n' || c = Char.ofNat 12 || c = '\r' || c = ' '

/-- Go `strings.TrimSpace`. -/
def trimSpace (l : List Char) : List Char :=
  ((l.dropWhile goSpace).reverse.dropWhile goSpace).reverse

/-- Go `strings.Contains`. -/
def containsSub : List Char → List Char → Bool
  | [], sub => sub.isEmpty
  | c :: t, sub => sub.isPrefixOf (c :: t) || containsSub t sub

/-- Go `strings.SplitN(s, ":", 2)`: `some (before, after)` split at the first
colon, `none` when the string contains no colon (in which case `SplitN`
returns a one-element slice). -/
def splitFirstColon : List Char → Option (List Char × List Char)
  | [] => Option.none
  | c :: t =>
    if c = ':' then some ([], t)
    else
      match splitFirstColon t with
      | some (l, r) => some (c :: l, r)
      | Option.none => Option.none

/-! ## The commit record (`parser.Commit`) -/

/-- `parser.Commit`. -/
structure Commit where
  hash : List Char := []
  message : List Char := []
  type : List Char := []
  scope : List Char := []
  board : List Char := []
  description : List Char := []
  forceMajor : Bool := false
deriving DecidableEq, Repr

/-! ## The four anchored patterns

Each Go pattern is a full-message anchor match (`^...$`) evaluated with
RE2's leftmost-first (Perl-style greedy backtracking) semantics.  Every
greedy sub-expression below is forced: whenever a quantifier could in
principle give back characters, the character class that follows it in the
pattern is disjoint from the one it repeats, so a shorter match fails at the
next literal; the only genuine backtracking, between `\s*`/`\s+` and the
final `(.+)$`, is implemented explicitly in `matchWsDesc`. -/

/-- The board token `[A-Z]+-\d+` at the start of the input, with the rest. -/
def matchBoard (s : List Char) : Option (List Char × List Char) :=
  let up := s.takeWhile Char.isUpper
  if up.isEmpty then Option.none
  else
    match s.dropWhile Char.isUpper with
    | [] => Option.none
    | c :: r2 =>
      if c = '-' then
        let ds := r2.takeWhile Char.isDigit
        if ds.isEmpty then Option.none
        else some (up ++ c :: ds, r2.dropWhile Char.isDigit)
      else Option.none

/-- `\(([^)]+)\)` at the start of the input: `some (scope, rest)`. -/
def matchScopeParen (s : List Char) : Option (List Char × List Char) :=
  match s with
  | [] => Option.none
  | c :: t =>
    if c = '(' then
      let sc := t.takeWhile (fun x => !(x = ')'))
      match t.dropWhile (fun x => !(x = ')')) with
      | [] => Option.none
      | d :: r =>
        if d = ')' then (if sc.isEmpty then Option.none else some (sc, r))
        else Option.none
    else Option.none

/-- The optional scope group `(?:\(([^)]+)\))?` of patterns 1 and 4.  In both
patterns a literal `:` follows the group, so when the input starts with `(`
but the inner group cannot complete, the skipped-group alternative would need
a `:` at that same `(` and fails; the sequential encoding is therefore exact. -/
def optScope (s : List Char) : Option (List Char × List Char) :=
  match s with
  | [] => some ([], s)
  | c :: _ => if c = '(' then matchScopeParen s else some ([], s)

/-- The literal `: ` (colon, space) of each pattern. -/
def litColonSp (s : List Char) : Option (List Char) :=
  match s with
  | c1 :: c2 :: r =>
    if c1 = ':' then (if c2 = ' ' then some r else Option.none) else Option.none
  | _ => Option.none

/-- `(.+)$`: the whole rest of the input, which must be nonempty and (RE2 `.`)
newline-free. -/
def matchRestDesc (s : List Char) : Option (List Char) :=
  if s.isEmpty then Option.none
  else if s.all (fun c => !(c = '\n')) then some s else Option.none

/-- `\s*(.+)$` with leftmost-first semantics: greedily consume whitespace,
falling back to starting the capture one character earlier on failure. -/
def matchWsDesc : List Char → Option (List Char)
  | [] => Option.none
  | c :: t =>
    if reSpace c then
      match matchWsDesc t with
      | some d => some d
      | Option.none => matchRestDesc (c :: t)
    else matchRestDesc (c :: t)

/-- `\s+(.+)$`, i.e. one whitespace character followed by `\s*(.+)$`. -/
def matchWsPlusDesc : List Char → Option (List Char)
  | [] => Option.none
  | c :: t => if reSpace c then matchWsDesc t else Option.none

/-- Pattern 1: `^(?P<board>[A-Z]+-\d+)(?:\((?P<scope>[^)]+)\))?: <(?P<type>[^>]+)>\s*(?P<desc>.+)$`.
Returns `(board, scope, type, desc)`. -/
def match1 (s : List Char) : Option (List Char × List Char × List Char × List Char) :=
  match matchBoard s with
  | Option.none => Option.none
  | some (bd, r1) =>
    match optScope r1 with
    | Option.none => Option.none
    | some (sc, r2) =>
      match litColonSp r2 with
      | Option.none => Option.none
      | some s3 =>
        match s3 with
        | [] => Option.none
        | c :: r3 =>
          if c = '<' then
            let ty := r3.takeWhile (fun x => !(x = '>'))
            match r3.dropWhile (fun x => !(x = '>')) with
            | [] => Option.none
            | d :: r4 =>
              if d = '>' then
                if ty.isEmpty then Option.none
                else
                  match matchWsDesc r4 with
                  | some dsc => some (bd, sc, ty, dsc)
                  | Option.none => Option.none
              else Option.none
          else Option.none

/-- Pattern 2: `^(?P<board>[A-Z]+-\d+)\((?P<scope>[^)]+)\): (?P<type>\w+)\s+(?P<desc>.+)$`.
Returns `(board, scope, type, desc)`. -/
def match2 (s : List Char) : Option (List Char × List Char × List Char × List Char) :=
  match matchBoard s with
  | Option.none => Option.none
  | some (bd, r1) =>
    match matchScopeParen r1 with
    | Option.none => Option.none
    | some (sc, r2) =>
      match litColonSp r2 with
      | Option.none => Option.none
      | some r3 =>
        let ty := r3.takeWhile wordChar
        if ty.isEmpty then Option.none
        else
          match matchWsPlusDesc (r3.dropWhile wordChar) with
          | some d => some (bd, sc, ty, d)
          | Option.none => Option.none

/-- Pattern 3: `^(?P<board>[A-Z]+-\d+): (?P<type>\w+)\s+(?P<desc>.+)$`.
Returns `(board, type, desc)`. -/
def match3 (s : List Char) : Option (List Char × List Char × List Char) :=
  match matchBoard s with
  | Option.none => Option.none
  | some (bd, r1) =>
    match litColonSp r1 with
    | Option.none => Option.none
    | some r3 =>
      let ty := r3.takeWhile wordChar
      if ty.isEmpty then Option.none
      else
        match matchWsPlusDesc (r3.dropWhile wordChar) with
        | some d => some (bd, ty, d)
        | Option.none => Option.none

/-- Pattern 4: `^(?P<type>\w+)(?P<force>!)?(?:\((?P<scope>[^)]+)\))?: (?P<desc>.+)$`.
Returns `(type, force, scope, desc)`.  The optional `!` is forced: when the
character after the type is `!` it must be consumed, since the skipped
alternative would need `(` or `:` at the `!`. -/
def match4 (s : List Char) : Option (List Char × Bool × List Char × List Char) :=
  let ty := s.takeWhile wordChar
  if ty.isEmpty then Option.none
  else
    let fr : Bool × List Char :=
      match s.dropWhile wordChar with
      | [] => (false, [])
      | c :: t => if c = '!' then (true, t) else (false, c :: t)
    match optScope fr.2 with
    | Option.none => Option.none
    | some (sc, r3) =>
      match litColonSp r3 with
      | Option.none => Option.none
      | some r4 =>
        match matchRestDesc r4 with
        | some d => some (ty, fr.1, sc, d)
        | Option.none => Option.none

/-! ## `parser.Parse` -/

/-- The pre-pattern scan of `Parse`: the trimmed message contains the literal
substring `Breaking` or `BREAKING`. -/
def breakingScan (m : List Char) : Bool :=
  containsSub m ("Breaking".toList) || containsSub m ("BREAKING".toList)

/-- The commit built by `parser.Parse` (the Go function's second return value,
an error, is nil on every path; see `Parse` below). -/
def parseC (raw : List Char) : Commit :=
  let m := trimSpace raw
  let base : Commit := { message := raw, forceMajor := breakingScan m }
  match match1 m with
  | some (bd, sc, ty, d) =>
    { base with board := bd, scope := sc, type := trimSpace ty, description := d }
  | Option.none =>
    match match2 m with
    | some (bd, sc, ty, d) =>
      { base with board := bd, scope := sc, type := trimSpace ty, description := d }
    | Option.none =>
      match match3 m with
      | some (bd, ty, d) =>
        { base with board := bd, type := trimSpace ty, description := d }
      | Option.none =>
        match match4 m with
        | some (ty, fc, sc, d) =>
          { base with type := trimSpace ty, scope := sc, description := d,
                      forceMajor := base.forceMajor || fc }
        | Option.none =>
          match splitFirstColon m with
          | some (l, r) =>
            let pt := trimSpace l
            if ['!'].isSuffixOf pt then
              { base with forceMajor := true, type := pt.dropLast,
                          description := trimSpace r }
            else { base with type := pt, description := trimSpace r }
          | Option.none => base

/-- `parser.Parse`: `some` models the Go `(commit, nil)` result; no code path
returns a non-nil error. -/
def Parse (raw : List Char) : Option Commit := some (parseC raw)

/-- "An explicit `!` force marker is present in the message": the marker that
`Parse` consumes — pattern 4's `(?P<force>!)?` group when pattern 4 is the
first pattern to match, or a trailing `!` on the trimmed pre-colon text when
no pattern matches and the fallback runs.  (Patterns 1–3 have no force
group.) -/
def forceMarker (raw : List Char) : Bool :=
  let m := trimSpace raw
  if (match1 m).isSome || (match2 m).isSome || (match3 m).isSome then false
  else
    match match4 m with
    | some r => r.2.1
    | Option.none =>
      match splitFirstColon m with
      | some (l, _) => ['!'].isSuffixOf (trimSpace l)
      | Option.none => false

/-- `Commit.String`'s `strings.Join(parts, " ")`. -/
def joinSpace : List (List Char) → List Char
  | [] => []
  | [x] => x
  | x :: xs => x ++ ' ' :: joinSpace xs

/-- `parser.Commit.String`. -/
def Commit.toString (c : Commit) : List Char :=
  joinSpace
    ((if c.board.isEmpty then [] else [c.board]) ++
     (if c.type.isEmpty then []
      else [c.type ++ (if c.forceMajor then ['!'] else [])]) ++
     (if c.scope.isEmpty then [] else ['(' :: (c.scope ++ [')'])]) ++
     (if c.description.isEmpty then [] else [c.description]))

/-! ## Bump kinds and the resolver (`config.go`, `version.go`) -/

/-- `config.BumpType` (its four named constants). -/
inductive BumpType where
  | none
  | patch
  | minor
  | major
deriving DecidableEq, Repr

/-- The `precedence` table of `version.maxBump`. -/
def bumpPrec : BumpType → Nat
  | BumpType.major => 3
  | BumpType.minor => 2
  | BumpType.patch => 1
  | BumpType.none => 0

/-- `version.maxBump`: `if precedence[a] > precedence[b] { return a }; return b`. -/
def maxBump (a b : BumpType) : BumpType :=
  if bumpPrec b < bumpPrec a then a else b

/-- The fields of `config.Config` read by the version calculator: the
`version.format` string and the `bump_rules` table. -/
structure Config where
  format : List Char
  bumpRules : List (List Char × BumpType)
deriving DecidableEq, Repr

/-- `config.Config.GetBumpType`: table lookup defaulting to `none`. -/
def Config.getBumpType (cfg : Config) (t : List Char) : BumpType :=
  match cfg.bumpRules.lookup t with
  | some b => b
  | Option.none => BumpType.none

/-- The loop body of `Calculator.DetermineBump`, with the accumulator. -/
def determineBumpLoop (cfg : Config) : BumpType → List Commit → BumpType
  | bump, [] => bump
  | bump, c :: cs =>
    if c.forceMajor then BumpType.major
    else determineBumpLoop cfg (maxBump bump (cfg.getBumpType c.type)) cs

/-- `Calculator.DetermineBump`. -/
def DetermineBump (cfg : Config) (commits : List Commit) : BumpType :=
  determineBumpLoop cfg BumpType.none commits

/-! ## The version calculator (`version.go`) -/

/-- `semver.Version` restricted to its numeric triple (the spec's version
data model). -/
structure SemVer where
  major : Nat
  minor : Nat
  patch : Nat
deriving DecidableEq, Repr

/-- Split a rune list on `.` (every occurrence); `splitOnDot s` is never
empty. -/
def splitOnDot : List Char → List (List Char)
  | [] => [[]]
  | c :: t =>
    if c = '.' then [] :: splitOnDot t
    else
      match splitOnDot t with
      | h :: r => (c :: h) :: r
      | [] => [[c]]

/-- A nonempty all-digit component, as a number. -/
def parseNatDigits (l : List Char) : Option Nat :=
  if l.isEmpty then Option.none
  else if l.all Char.isDigit then
    some (l.foldl (fun a c => 10 * a + (c.toNat - 48)) 0)
  else Option.none

/-- Parse every component, failing if any fails. -/
def parseComponents : List (List Char) → Option (List Nat)
  | [] => some []
  | c :: t =>
    match parseNatDigits c, parseComponents t with
    | some n, some ns => some (n :: ns)
    | _, _ => Option.none

/-- Modelled from the spec: the external Masterminds `semver.NewVersion`,
which is not part of this repository, as §4.3 describes it — "Parse into
three non-negative integers (major, minor, patch); versions missing trailing
components default the missing ones to zero (e.g. a 2-component or
1-component input is accepted and zero-extended). Fails with `InvalidVersion`
when the remaining text does not form a valid dotted numeric version." -/
def newVersion (s : List Char) : Option SemVer :=
  match parseComponents (splitOnDot s) with
  | some [a] => some ⟨a, 0, 0⟩
  | some [a, b] => some ⟨a, b, 0⟩
  | some [a, b, c] => some ⟨a, b, c⟩
  | _ => Option.none

/-- Go `strings.TrimPrefix(s, "v")`. -/
def trimLeadV (s : List Char) : List Char :=
  match s with
  | 'v' :: t => t
  | _ => s

/-- `Calculator.parseVersion`: strip an optional leading `v`, then parse. -/
def parseVersion (s : List Char) : Option SemVer := newVersion (trimLeadV s)

/-- Modelled from the spec: semver `IncMajor` — `major → (major+1, 0, 0)`. -/
def incMajor (v : SemVer) : SemVer := ⟨v.major + 1, 0, 0⟩

/-- Modelled from the spec: semver `IncMinor` — `minor → (major, minor+1, 0)`. -/
def incMinor (v : SemVer) : SemVer := ⟨v.major, v.minor + 1, 0⟩

/-- Modelled from the spec: semver `IncPatch` — `patch → (major, minor, patch+1)`. -/
def incPatch (v : SemVer) : SemVer := ⟨v.major, v.minor, v.patch + 1⟩

/-- The claim's bump-arithmetic table, as a function: `major → (major+1,0,0)`,
`minor → (major,minor+1,0)`, `patch → (major,minor,patch+1)`, `none → v`. -/
def applyBump : BumpType → SemVer → SemVer
  | BumpType.major, v => ⟨v.major + 1, 0, 0⟩
  | BumpType.minor, v => ⟨v.major, v.minor + 1, 0⟩
  | BumpType.patch, v => ⟨v.major, v.minor, v.patch + 1⟩
  | BumpType.none, v => v

/-- Decimal rendering of a natural number. -/
def natChars (n : Nat) : List Char := Nat.toDigits 10 n

/-- semver `Version.String()`: `MAJOR.MINOR.PATCH`. -/
def semverChars (v : SemVer) : List Char :=
  natChars v.major ++ '.' :: natChars v.minor ++ '.' :: natChars v.patch

/-- `Calculator.formatVersion`: prefix with `v` iff the configured format is
`v-prefix`. -/
def formatVersion (cfg : Config) (v : SemVer) : List Char :=
  if cfg.format = ("v-prefix".toList) then 'v' :: semverChars v
  else semverChars v

/-- The error of `Calculator.Calculate` (Go wraps it with the message
`invalid current version ...`). -/
inductive CalcErr where
  | invalidVersion
deriving DecidableEq, Repr

/-- `Calculator.Calculate`. -/
def Calculate (cfg : Config) (current : List Char) (commits : List Commit) :
    Except CalcErr (List Char × BumpType) :=
  match parseVersion current with
  | Option.none => Except.error CalcErr.invalidVersion
  | some ver =>
    match DetermineBump cfg commits with
    | BumpType.major => Except.ok (formatVersion cfg (incMajor ver), BumpType.major)
    | BumpType.minor => Except.ok (formatVersion cfg (incMinor ver), BumpType.minor)
    | BumpType.patch => Except.ok (formatVersion cfg (incPatch ver), BumpType.patch)
    | BumpType.none => Except.ok (current, BumpType.none)

/-- Modelled from the spec: semver `Version.Compare` — "standard integer
triple comparison" with values in `{-1, 0, 1}`. -/
def semverCompare (a b : SemVer) : Int :=
  if a.major < b.major then -1 else if b.major < a.major then 1
  else if a.minor < b.minor then -1 else if b.minor < a.minor then 1
  else if a.patch < b.patch then -1 else if b.patch < a.patch then 1
  else 0

/-- The two error cases of `version.Compare`. -/
inductive CmpErr where
  | invalidV1
  | invalidV2
deriving DecidableEq, Repr

/-- `version.Compare`: the Go pair `(int, error)`. -/
def Compare (v1 v2 : List Char) : Int × Option CmpErr :=
  match newVersion (trimLeadV v1) with
  | Option.none => (0, some CmpErr.invalidV1)
  | some a =>
    match newVersion (trimLeadV v2) with
    | Option.none => (0, some CmpErr.invalidV2)
    | some b => (semverCompare a b, Option.none)

/-- The spec's validity grammar for a (prefix-stripped) version string,
stated independently of `newVersion`: one to three dot-separated components,
each a nonempty digit string. -/
def wellFormedVersion (s : List Char) : Bool :=
  decide ((splitOnDot s).length ≤ 3) &&
    (splitOnDot s).all (fun c => !c.isEmpty && c.all Char.isDigit)

/-- Claim C6's "with one trailing `!` stripped". -/
def stripOneBang (l : List Char) : List Char :=
  if ['!'].isSuffixOf l then l.dropLast else l

/-- A concrete configuration (the spec §8 rule table, `semver` format),
used to instantiate the general theorems at concrete inputs. -/
def cfgStd : Config :=
  { format := "semver".toList,
    bumpRules :=
      [("Fix".toList, BumpType.patch), ("Feature".toList, BumpType.minor),
       ("Breaking".toList, BumpType.major)] }

/-- `cfgStd` with the `v-prefix` output format. -/
def cfgVPre : Config := { cfgStd with format := "v-prefix".toList }

/-! ## Helper lemmas: substrings and trimming -/

lemma isPrefixOf_true_iff {l₁ l₂ : List Char} : l₁.isPrefixOf l₂ = true ↔ l₁ <+: l₂ := by
  exact List.isPrefixOf_iff_prefix

lemma containsSub_iff {s p : List Char} : containsSub s p = true ↔ p <:+: s := by
  induction s with
  | nil => simp [containsSub, List.isEmpty_iff, List.infix_nil]
  | cons c t ih =>
    simp [containsSub, Bool.or_eq_true, ih, List.infix_cons_iff, isPrefixOf_true_iff]

lemma infix_rev {l s : List Char} (h : l <:+: s) : l.reverse <:+: s.reverse := by
  obtain ⟨a, b, rfl⟩ := h
  exact ⟨b.reverse, a.reverse, by simp⟩

lemma infix_dropWhile_of_head {q : Char → Bool} {c : Char} {l s : List Char}
    (hc : q c = false) (h : (c :: l) <:+: s) : (c :: l) <:+: s.dropWhile q := by
  induction s with
  | nil => exact h
  | cons a t ih =>
    by_cases ha : q a = true
    · rw [List.dropWhile_cons_of_pos ha]
      rcases List.infix_cons_iff.mp h with h1 | h2
      · obtain ⟨rfl, -⟩ := List.cons_prefix_cons.mp h1
        rw [hc] at ha; simp at ha
      · exact ih h2
    · rwa [List.dropWhile_cons_of_neg ha]

lemma trimSpace_shrinks (s : List Char) : trimSpace s <:+: s := by
  have h1 : s.dropWhile goSpace <:+ s := List.dropWhile_suffix goSpace
  have h2 : (s.dropWhile goSpace).reverse.dropWhile goSpace <:+
      (s.dropWhile goSpace).reverse := List.dropWhile_suffix goSpace
  have h3 : trimSpace s <:+: s.dropWhile goSpace := by
    have h4 := infix_rev (List.IsSuffix.isInfix h2)
    simpa [trimSpace] using h4
  exact List.IsInfix.trans h3 (List.IsSuffix.isInfix h1)

lemma infix_trim {p s : List Char} (hne : p ≠ [])
    (hall : ∀ c ∈ p, goSpace c = false) (h : p <:+: s) : p <:+: trimSpace s := by
  obtain ⟨c, l, rfl⟩ := List.exists_cons_of_ne_nil hne
  have h1 : (c :: l) <:+: s.dropWhile goSpace :=
    infix_dropWhile_of_head (hall c (by simp)) h
  have h2 := infix_rev h1
  cases hr : (c :: l).reverse with
  | nil => simp at hr
  | cons d r =>
    rw [hr] at h2
    have hd : goSpace d = false := by
      apply hall
      have hm : d ∈ (c :: l).reverse := by rw [hr]; simp
      exact List.mem_reverse.mp hm
    have h3 := infix_dropWhile_of_head hd h2
    have h4 := infix_rev h3
    rw [← hr] at h4
    simpa [trimSpace] using h4

lemma containsSub_trim {s p : List Char} (hne : p ≠ [])
    (hall : ∀ c ∈ p, goSpace c = false) :
    containsSub (trimSpace s) p = containsSub s p := by
  have h1 : containsSub (trimSpace s) p = true ↔ containsSub s p = true := by
    rw [containsSub_iff, containsSub_iff]
    exact ⟨fun h => List.IsInfix.trans h (trimSpace_shrinks s), infix_trim hne hall⟩
  cases hA : containsSub (trimSpace s) p <;> cases hB : containsSub s p <;> simp_all

lemma mem_of_headq {c : Char} {l : List Char} (h : l.head? = some c) : c ∈ l := by
  cases l with
  | nil => cases h
  | cons a t =>
    rw [List.head?_cons, Option.some_inj] at h
    subst h
    exact List.mem_cons_self a t

lemma mem_of_getLastq {c : Char} {l : List Char} (h : l.getLast? = some c) : c ∈ l := by
  have h2 : l.reverse.head? = some c := by simpa using h
  have h3 := mem_of_headq h2
  simpa using h3

lemma dropWhile_eq_self_of_head {q : Char → Bool} {l : List Char}
    (h : ∀ c, l.head? = some c → q c = false) : l.dropWhile q = l := by
  cases l with
  | nil => rfl
  | cons a t => exact List.dropWhile_cons_of_neg (by simp [h a rfl])

lemma trimSpace_eq_self {l : List Char}
    (h1 : ∀ c, l.head? = some c → goSpace c = false)
    (h2 : ∀ c, l.getLast? = some c → goSpace c = false) : trimSpace l = l := by
  unfold trimSpace
  rw [dropWhile_eq_self_of_head h1]
  rw [dropWhile_eq_self_of_head (fun c hc => h2 c (by simpa using hc))]
  exact List.reverse_reverse l

lemma trimSpace_eq_self_of_all {l : List Char}
    (h : ∀ c ∈ l, goSpace c = false) : trimSpace l = l :=
  trimSpace_eq_self (fun c hc => h c (mem_of_headq hc))
    (fun c hc => h c (mem_of_getLastq hc))

lemma takeWhile_app_all {q : Char → Bool} {a b : List Char}
    (ha : ∀ c ∈ a, q c = true) (hb : ∀ c, b.head? = some c → q c = false) :
    (a ++ b).takeWhile q = a := by
  induction a with
  | nil =>
    simp only [List.nil_append]
    cases b with
    | nil => rfl
    | cons x t => exact List.takeWhile_cons_of_neg (by simp [hb x rfl])
  | cons x xs ih =>
    rw [List.cons_append, List.takeWhile_cons_of_pos (ha x (List.mem_cons_self x xs)),
      ih (fun c hc => ha c (List.mem_cons_of_mem x hc))]

lemma dropWhile_app_all {q : Char → Bool} {a b : List Char}
    (ha : ∀ c ∈ a, q c = true) (hb : ∀ c, b.head? = some c → q c = false) :
    (a ++ b).dropWhile q = b := by
  induction a with
  | nil =>
    simp only [List.nil_append]
    exact dropWhile_eq_self_of_head hb
  | cons x xs ih =>
    rw [List.cons_append, List.dropWhile_cons_of_pos (ha x (List.mem_cons_self x xs)),
      ih (fun c hc => ha c (List.mem_cons_of_mem x hc))]

/-! ## Helper lemmas: the bump resolver -/

lemma maxBump_choice (a b : BumpType) : maxBump a b = a ∨ maxBump a b = b := by
  unfold maxBump
  split
  · exact Or.inl rfl
  · exact Or.inr rfl

lemma bumpPrec_maxBump (a b : BumpType) :
    bumpPrec (maxBump a b) = max (bumpPrec a) (bumpPrec b) := by
  cases a <;> cases b <;> rfl

lemma maxBump_right_comm (b a1 a2 : BumpType) :
    maxBump (maxBump b a1) a2 = maxBump (maxBump b a2) a1 := by
  cases b <;> cases a1 <;> cases a2 <;> rfl

lemma determineBumpLoop_force {cfg : Config} {cs : List Commit} (acc : BumpType)
    (h : cs.any (fun c => c.forceMajor) = true) :
    determineBumpLoop cfg acc cs = BumpType.major := by
  induction cs generalizing acc with
  | nil => simp at h
  | cons c t ih =>
    rw [List.any_cons, Bool.or_eq_true] at h
    unfold determineBumpLoop
    by_cases hc : c.forceMajor = true
    · rw [if_pos hc]
    · rw [if_neg hc]
      apply ih
      rcases h with h | h
      · exact absurd h hc
      · exact h

lemma determineBumpLoop_fold {cfg : Config} {cs : List Commit} (acc : BumpType)
    (h : cs.any (fun c => c.forceMajor) = false) :
    determineBumpLoop cfg acc cs =
      (cs.map (fun c => cfg.getBumpType c.type)).foldl maxBump acc := by
  induction cs generalizing acc with
  | nil => rfl
  | cons c t ih =>
    rw [List.any_cons, Bool.or_eq_false_iff] at h
    unfold determineBumpLoop
    rw [if_neg (by simp [h.1]), List.map_cons, List.foldl_cons]
    exact ih _ h.2

lemma foldl_maxBump_le {l : List BumpType} {acc : BumpType} :
    bumpPrec acc ≤ bumpPrec (l.foldl maxBump acc) ∧
      ∀ x ∈ l, bumpPrec x ≤ bumpPrec (l.foldl maxBump acc) := by
  induction l generalizing acc with
  | nil => exact ⟨Nat.le_refl _, by simp⟩
  | cons y ys ih =>
    rw [List.foldl_cons]
    obtain ⟨h1, h2⟩ := @ih (maxBump acc y)
    refine ⟨?_, ?_⟩
    · exact le_trans (by rw [bumpPrec_maxBump]; exact Nat.le_max_left _ _) h1
    · intro x hx
      rcases List.mem_cons.mp hx with rfl | hx
      · exact le_trans (by rw [bumpPrec_maxBump]; exact Nat.le_max_right _ _) h1
      · exact h2 x hx

lemma foldl_maxBump_mem {l : List BumpType} {acc : BumpType} :
    l.foldl maxBump acc = acc ∨ l.foldl maxBump acc ∈ l := by
  induction l generalizing acc with
  | nil => exact Or.inl rfl
  | cons y ys ih =>
    rw [List.foldl_cons]
    rcases @ih (maxBump acc y) with h | h
    · rw [h]
      rcases maxBump_choice acc y with h2 | h2
      · exact Or.inl h2
      · exact Or.inr (by rw [h2]; simp)
    · exact Or.inr (List.mem_cons_of_mem _ h)

lemma determineBump_eq (cfg : Config) (cs : List Commit) :
    DetermineBump cfg cs =
      if cs.any (fun c => c.forceMajor) = true then BumpType.major
      else (cs.map (fun c => cfg.getBumpType c.type)).foldl maxBump BumpType.none := by
  by_cases h : cs.any (fun c => c.forceMajor) = true
  · rw [if_pos h]
    exact determineBumpLoop_force _ h
  · rw [if_neg h]
    exact determineBumpLoop_fold _ (by simpa using h)

lemma perm_any {l l' : List Commit} (h : l.Perm l') (f : Commit → Bool) :
    l.any f = l'.any f := by
  cases hb : l'.any f
  · rw [List.any_eq_false] at hb ⊢
    intro x hx
    exact hb x (h.mem_iff.mp hx)
  · rw [List.any_eq_true] at hb ⊢
    obtain ⟨x, hx, hfx⟩ := hb
    exact ⟨x, h.mem_iff.mpr hx, hfx⟩

lemma wordChar_not_space {c : Char} (h : wordChar c = true) : goSpace c = false := by
  cases hg : goSpace c
  · rfl
  · exfalso
    simp only [goSpace, Bool.or_eq_true, decide_eq_true_eq] at hg
    have hcs : c = ' ' ∨ c = '\t' ∨ c = '\n' ∨ c = Char.ofNat 11 ∨ c = Char.ofNat 12 ∨
        c = '\r' ∨ c = Char.ofNat 133 ∨ c = Char.ofNat 160 := by tauto
    rcases hcs with rfl | rfl | rfl | rfl | rfl | rfl | rfl | rfl <;>
      exact absurd h (by decide)

/-! ## Helper lemmas: version parsing -/

lemma parseNatDigits_isSome (l : List Char) :
    (parseNatDigits l).isSome = (!l.isEmpty && l.all Char.isDigit) := by
  unfold parseNatDigits
  cases h1 : l.isEmpty <;> cases h2 : l.all Char.isDigit <;> simp [h1, h2]

lemma parseNatDigits_some {a : List Char} {n : Nat} (h : parseNatDigits a = some n) :
    a.isEmpty = false ∧ a.all Char.isDigit = true := by
  have hs : (parseNatDigits a).isSome = true := by rw [h]; rfl
  rw [parseNatDigits_isSome, Bool.and_eq_true, Bool.not_eq_true'] at hs
  exact hs

lemma digit_ne_dot {c : Char} (h : c.isDigit = true) : c ≠ '.' := by
  rintro rfl
  exact absurd h (by decide)

lemma parseComponents_length {l : List (List Char)} {xs : List Nat}
    (h : parseComponents l = some xs) : xs.length = l.length := by
  induction l generalizing xs with
  | nil =>
    cases h
    rfl
  | cons c t ih =>
    unfold parseComponents at h
    cases h1 : parseNatDigits c with
    | none => rw [h1] at h; cases h
    | some n =>
      rw [h1] at h
      cases h2 : parseComponents t with
      | none => rw [h2] at h; cases h
      | some ns =>
        rw [h2] at h
        cases h
        simp [ih h2]

lemma parseComponents_isSome (l : List (List Char)) :
    (parseComponents l).isSome = l.all (fun c => !c.isEmpty && c.all Char.isDigit) := by
  induction l with
  | nil => rfl
  | cons c t ih =>
    unfold parseComponents
    rw [List.all_cons, ← parseNatDigits_isSome, ← ih]
    cases h1 : parseNatDigits c <;> cases h2 : parseComponents t <;> simp [h1, h2]

lemma splitOnDot_ne_nil (s : List Char) : splitOnDot s ≠ [] := by
  cases s with
  | nil => simp [splitOnDot]
  | cons c t =>
    unfold splitOnDot
    by_cases h : c = '.'
    · simp [h]
    · rw [if_neg h]
      cases h2 : splitOnDot t <;> simp

lemma newVersion_isSome (s : List Char) :
    (newVersion s).isSome = wellFormedVersion s := by
  unfold newVersion wellFormedVersion
  cases hp : parseComponents (splitOnDot s) with
  | none =>
    have ha : (splitOnDot s).all (fun c => !c.isEmpty && c.all Char.isDigit) = false := by
      rw [← parseComponents_isSome, hp]
      rfl
    simp [ha]
  | some xs =>
    have ha : (splitOnDot s).all (fun c => !c.isEmpty && c.all Char.isDigit) = true := by
      rw [← parseComponents_isSome, hp]
      rfl
    have hl := parseComponents_length hp
    rw [ha, Bool.and_true, ← hl]
    rcases xs with _ | ⟨a, _ | ⟨b, _ | ⟨c, _ | ⟨d, rest⟩⟩⟩⟩
    · exact absurd (List.length_eq_zero.mp hl.symm) (splitOnDot_ne_nil s)
    · simp
    · simp
    · simp
    · simp only [Option.isSome_none, List.length_cons]
      rw [eq_comm, decide_eq_false_iff_not]
      omega

lemma splitOnDot_app {a s h1 : List Char} {r : List (List Char)}
    (ha : ∀ c ∈ a, c ≠ '.') (hs : splitOnDot s = h1 :: r) :
    splitOnDot (a ++ s) = (a ++ h1) :: r := by
  induction a with
  | nil => simpa using hs
  | cons x xs ih =>
    rw [List.cons_append]
    unfold splitOnDot
    rw [if_neg (ha x (List.mem_cons_self x xs))]
    rw [ih (fun c hc => ha c (List.mem_cons_of_mem x hc))]
    rfl

lemma no_dot_of_digits {a : List Char} (h : a.all Char.isDigit = true) :
    ∀ c ∈ a, c ≠ '.' := by
  intro c hc
  exact digit_ne_dot (List.all_eq_true.mp h c hc)

lemma splitOnDot_single {a : List Char} (ha : ∀ c ∈ a, c ≠ '.') :
    splitOnDot a = [a] := by
  have h := @splitOnDot_app a [] [] [] ha rfl
  simpa using h

lemma newVersion_one {a : List Char} {na : Nat} (h : parseNatDigits a = some na) :
    newVersion a = some ⟨na, 0, 0⟩ := by
  have hd := no_dot_of_digits (parseNatDigits_some h).2
  unfold newVersion
  rw [splitOnDot_single hd]
  unfold parseComponents parseComponents
  rw [h]

lemma newVersion_two {a b : List Char} {na nb : Nat}
    (h1 : parseNatDigits a = some na) (h2 : parseNatDigits b = some nb) :
    newVersion (a ++ '.' :: b) = some ⟨na, nb, 0⟩ := by
  have hda := no_dot_of_digits (parseNatDigits_some h1).2
  have hdb := no_dot_of_digits (parseNatDigits_some h2).2
  have hsb : splitOnDot ('.' :: b) = [] :: [b] := by
    unfold splitOnDot
    rw [if_pos rfl, splitOnDot_single hdb]
  have hs : splitOnDot (a ++ '.' :: b) = [a, b] := by
    have h3 := @splitOnDot_app a ('.' :: b) [] [b] hda hsb
    simpa using h3
  unfold newVersion
  rw [hs]
  unfold parseComponents parseComponents parseComponents
  rw [h1, h2]

/-! ## Helper lemmas: the fallback split -/

lemma single_isPrefixOf_cons (x c : Char) (t : List Char) :
    [x].isPrefixOf (c :: t) = (x == c) := by
  simp [List.isPrefixOf]

lemma splitFirstColon_eq (m : List Char) :
    splitFirstColon m =
      if containsSub m [':'] = true
      then some (m.takeWhile (fun c => !(c = ':')),
        (m.dropWhile (fun c => !(c = ':'))).tail)
      else Option.none := by
  induction m with
  | nil => rfl
  | cons c t ih =>
    unfold splitFirstColon
    by_cases hc : c = ':'
    · subst hc
      rw [if_pos rfl,
        if_pos (by unfold containsSub; simp [single_isPrefixOf_cons])]
      rw [List.takeWhile_cons_of_neg (by simp), List.dropWhile_cons_of_neg (by simp)]
      rfl
    · rw [if_neg hc, ih]
      by_cases hct : containsSub t [':'] = true
      · rw [if_pos hct,
          if_pos (by unfold containsSub; simp [single_isPrefixOf_cons, hct])]
        rw [List.takeWhile_cons_of_pos (by simp [hc]), List.dropWhile_cons_of_pos (by simp [hc])]
      · rw [if_neg hct,
          if_neg (by unfold containsSub; simp [single_isPrefixOf_cons, hct, Ne.symm hc])]

/-! ## Claim theorems -/

/-- **C1.** For every bump rule table and every list of structured commits,
`DetermineBump` returns `major` immediately upon encountering the first
commit with `force_major` (regardless of everything after it); otherwise it
returns the maximum, in the total order `none < patch < minor < major`
(measured by `bumpPrec`), of `rules[commit.type]` (with `none` for absent
types, via `getBumpType`) over all commits; for the empty list it returns
`none`. -/
theorem DetermineBump_resolves_max (cfg : Config) :
    DetermineBump cfg [] = BumpType.none
    ∧ (∀ c cs, c.forceMajor = true → DetermineBump cfg (c :: cs) = BumpType.major)
    ∧ (∀ cs, cs.any (fun c => c.forceMajor) = true →
        DetermineBump cfg cs = BumpType.major)
    ∧ (∀ cs, cs.any (fun c => c.forceMajor) = false →
        (∀ c ∈ cs, bumpPrec (cfg.getBumpType c.type) ≤ bumpPrec (DetermineBump cfg cs))
        ∧ (DetermineBump cfg cs = BumpType.none
            ∨ ∃ c ∈ cs, cfg.getBumpType c.type = DetermineBump cfg cs)) := by
  refine ⟨rfl, ?_, ?_, ?_⟩
  · intro c cs hc
    unfold DetermineBump determineBumpLoop
    rw [if_pos hc]
  · intro cs h
    exact determineBumpLoop_force _ h
  · intro cs h
    have he := determineBump_eq cfg cs
    rw [if_neg (by simp [h])] at he
    constructor
    · intro c hc
      rw [he]
      exact foldl_maxBump_le.2 _ (List.mem_map_of_mem _ hc)
    · rcases @foldl_maxBump_mem (cs.map fun c => cfg.getBumpType c.type)
        BumpType.none with h2 | h2
      · exact Or.inl (by rw [he, h2])
      · rw [← he] at h2
        obtain ⟨c, hc, hceq⟩ := List.mem_map.mp h2
        exact Or.inr ⟨c, hc, hceq⟩

/-- Witness for C1: a forced commit resolves to `major` however long the
tail; `[Fix, Feature]` with the standard table resolves to `minor`. -/
theorem DetermineBump_resolves_max_witness :
    DetermineBump cfgStd
        [{ type := ("Fix".toList), forceMajor := true }, { type := ("Docs".toList) }]
      = BumpType.major
    ∧ bumpPrec (cfgStd.getBumpType ("Fix".toList)) ≤
        bumpPrec (DetermineBump cfgStd
          [{ type := ("Fix".toList) }, { type := ("Feature".toList) }]) := by
  constructor
  · exact (DetermineBump_resolves_max cfgStd).2.1 _ _ rfl
  · exact ((DetermineBump_resolves_max cfgStd).2.2.2 _ (by decide)).1
      { type := ("Fix".toList) } (List.mem_cons_self _ _)

/-- **C8.** `DetermineBump` is insensitive to the order of the commit list:
it returns the same bump on any permutation, including in the presence of
`force_major` commits. -/
theorem DetermineBump_perm_invariant (cfg : Config) {l l' : List Commit}
    (h : l.Perm l') : DetermineBump cfg l = DetermineBump cfg l' := by
  rw [determineBump_eq, determineBump_eq, perm_any h (fun c => c.forceMajor)]
  by_cases ha : l'.any (fun c => c.forceMajor) = true
  · rw [if_pos ha, if_pos ha]
  · rw [if_neg ha, if_neg ha]
    exact List.Perm.foldl_eq' (h.map _)
      (fun x _ y _ z => maxBump_right_comm z x y) BumpType.none

/-- Witness for C8: swapping two commits (one of them force-major) leaves
the result unchanged. -/
theorem DetermineBump_perm_invariant_witness :
    DetermineBump cfgStd
        [{ type := ("Fix".toList) }, { type := ("Feature".toList), forceMajor := true }]
      = DetermineBump cfgStd
        [{ type := ("Feature".toList), forceMajor := true }, { type := ("Fix".toList) }] :=
  DetermineBump_perm_invariant cfgStd (List.Perm.swap _ _ _)

/-- **C3.** For every current version string parsing to `(major, minor,
patch)` and every resolved bump other than `none`, `Calculate` returns the
serialization of `(major+1,0,0)` / `(major,minor+1,0)` / `(major,minor,
patch+1)` as `MAJOR.MINOR.PATCH`, prefixed with `v` iff the configured
format is `v-prefix` — independent of whether the input carried a `v`
prefix. -/
theorem Calculate_applies_bump (cfg : Config) (cur : List Char)
    (commits : List Commit) (v : SemVer) (b : BumpType)
    (hv : parseVersion cur = some v) (hb : DetermineBump cfg commits = b)
    (hne : b ≠ BumpType.none) :
    Calculate cfg cur commits = Except.ok
      ((if cfg.format = ("v-prefix".toList) then ['v'] else []) ++
        semverChars (applyBump b v), b) := by
  unfold Calculate
  rw [hv, hb]
  cases b with
  | none => exact absurd rfl hne
  | major =>
    show Except.ok (formatVersion cfg (incMajor v), BumpType.major) = _
    unfold formatVersion incMajor applyBump
    split <;> simp
  | minor =>
    show Except.ok (formatVersion cfg (incMinor v), BumpType.minor) = _
    unfold formatVersion incMinor applyBump
    split <;> simp
  | patch =>
    show Except.ok (formatVersion cfg (incPatch v), BumpType.patch) = _
    unfold formatVersion incPatch applyBump
    split <;> simp

/-- Witness for C3: the spec's concrete bump-arithmetic and v-prefix
examples. -/
theorem Calculate_applies_bump_witness :
    Calculate cfgStd ("1.2.3".toList) [{ type := ("Breaking".toList) }]
      = Except.ok ("2.0.0".toList, BumpType.major)
    ∧ Calculate cfgStd ("1.2.3".toList) [{ type := ("Feature".toList) }]
      = Except.ok ("1.3.0".toList, BumpType.minor)
    ∧ Calculate cfgStd ("1.2.3".toList) [{ type := ("Fix".toList) }]
      = Except.ok ("1.2.4".toList, BumpType.patch)
    ∧ Calculate cfgVPre ("1.2.3".toList) [{ type := ("Feature".toList) }]
      = Except.ok ("v1.3.0".toList, BumpType.minor) :=
  ⟨(Calculate_applies_bump cfgStd _ _ ⟨1, 2, 3⟩ BumpType.major (by decide) (by decide)
      (by decide)).trans (congrArg Except.ok (by decide)),
   (Calculate_applies_bump cfgStd _ _ ⟨1, 2, 3⟩ BumpType.minor (by decide) (by decide)
      (by decide)).trans (congrArg Except.ok (by decide)),
   (Calculate_applies_bump cfgStd _ _ ⟨1, 2, 3⟩ BumpType.patch (by decide) (by decide)
      (by decide)).trans (congrArg Except.ok (by decide)),
   (Calculate_applies_bump cfgVPre _ _ ⟨1, 2, 3⟩ BumpType.minor (by decide) (by decide)
      (by decide)).trans (congrArg Except.ok (by decide))⟩

/-- **C4.** `Calculate` returns the `InvalidVersion` error — propagated via
the error channel, never defaulted — exactly when the current version, after
stripping an optional leading `v`, is not a well-formed dotted-integer
version of 1 to 3 components; and 1- or 2-component inputs are accepted
with missing trailing components defaulted to zero. -/
theorem Calculate_invalid_iff (cfg : Config) (cur : List Char)
    (commits : List Commit) :
    ((∃ e, Calculate cfg cur commits = Except.error e) ↔
      wellFormedVersion (trimLeadV cur) = false)
    ∧ (∀ a b na nb, parseNatDigits a = some na → parseNatDigits b = some nb →
        newVersion a = some ⟨na, 0, 0⟩ ∧ newVersion (a ++ '.' :: b) = some ⟨na, nb, 0⟩) := by
  constructor
  · unfold Calculate
    cases hv : parseVersion cur with
    | none =>
      have hw : wellFormedVersion (trimLeadV cur) = false := by
        rw [← newVersion_isSome]
        unfold parseVersion at hv
        rw [hv]
        rfl
      rw [hw]
      exact iff_of_true ⟨CalcErr.invalidVersion, rfl⟩ rfl
    | some v =>
      have hw : wellFormedVersion (trimLeadV cur) = true := by
        rw [← newVersion_isSome]
        unfold parseVersion at hv
        rw [hv]
        rfl
      refine iff_of_false ?_ (by simp [hw])
      rintro ⟨e, he⟩
      cases hd : DetermineBump cfg commits <;> simp [hd] at he
  · intro a b na nb h1 h2
    exact ⟨newVersion_one h1, newVersion_two h1 h2⟩

/-- Witness for C4: `vx.y` is rejected with an error, `1.2.3` is not, and
`7` / `7.4` zero-extend. -/
theorem Calculate_invalid_iff_witness :
    (∃ e, Calculate cfgStd ("vx.y".toList) [] = Except.error e)
    ∧ newVersion ("7".toList) = some ⟨7, 0, 0⟩
    ∧ newVersion ("7.4".toList) = some ⟨7, 4, 0⟩ :=
  ⟨(Calculate_invalid_iff cfgStd _ []).1.mpr (by decide),
   ((Calculate_invalid_iff cfgStd ("vx.y".toList) []).2 ("7".toList) ("4".toList) 7 4
      (by decide) (by decide)).1,
   ((Calculate_invalid_iff cfgStd ("vx.y".toList) []).2 ("7".toList) ("4".toList) 7 4
      (by decide) (by decide)).2⟩

/-- **C7.** When the resolved bump is `none`, `Calculate` returns the input
version string verbatim (not re-parsed and re-serialized), paired with
`none` and no error. -/
theorem Calculate_none_verbatim (cfg : Config) (cur : List Char)
    (commits : List Commit) (v : SemVer)
    (hv : parseVersion cur = some v)
    (hb : DetermineBump cfg commits = BumpType.none) :
    Calculate cfg cur commits = Except.ok (cur, BumpType.none) := by
  unfold Calculate
  rw [hv, hb]

/-- Witness for C7: `v1.2` comes back as the verbatim `v1.2`, not
re-serialized (which under `semver` format would be `1.2.0`). -/
theorem Calculate_none_verbatim_witness :
    Calculate cfgStd ("v1.2".toList) [] = Except.ok ("v1.2".toList, BumpType.none) :=
  Calculate_none_verbatim cfgStd _ [] ⟨1, 2, 0⟩ (by decide) rfl

/-- **C10.** `Compare` is not total over strings: it returns `0` together
with an error exactly when either argument (after stripping one leading `v`)
fails version parsing, and a `-1`/`0`/`1` comparison with no error exactly
when both parse. -/
theorem Compare_error_characterization (v1 v2 : List Char) :
    ((Compare v1 v2).2 = Option.none ↔
      (newVersion (trimLeadV v1)).isSome = true
        ∧ (newVersion (trimLeadV v2)).isSome = true)
    ∧ ((Compare v1 v2).2 ≠ Option.none → (Compare v1 v2).1 = 0)
    ∧ ((Compare v1 v2).2 = Option.none →
        (Compare v1 v2).1 = -1 ∨ (Compare v1 v2).1 = 0 ∨ (Compare v1 v2).1 = 1) := by
  unfold Compare
  cases h1 : newVersion (trimLeadV v1) with
  | none => simp
  | some a =>
    cases h2 : newVersion (trimLeadV v2) with
    | none => simp
    | some b =>
      refine ⟨by simp, by simp, fun _ => ?_⟩
      show semverCompare a b = -1 ∨ semverCompare a b = 0 ∨ semverCompare a b = 1
      unfold semverCompare
      split_ifs <;> simp

/-- Witness for C10: an unparsable first argument yields `0` with an error;
two valid versions yield a value in `{-1, 0, 1}`. -/
theorem Compare_error_characterization_witness :
    (Compare ("abc".toList) ("1.0.0".toList)).1 = 0
    ∧ ((Compare ("1.2.3".toList) ("1.2.4".toList)).1 = -1
        ∨ (Compare ("1.2.3".toList) ("1.2.4".toList)).1 = 0
        ∨ (Compare ("1.2.3".toList) ("1.2.4".toList)).1 = 1) :=
  ⟨(Compare_error_characterization _ _).2.1 (by decide),
   (Compare_error_characterization _ _).2.2 (by decide)⟩

/-- **C5.** The parser tries its four anchored patterns in fixed priority
order with the first match winning: `"B-1(x,y): <Fix> msg"` is matched by
pattern 1 (board + wrapped type) — so it never reaches the generic
pattern — and `Parse` yields type `Fix`, board `B-1`, scope `x,y`,
description `msg`. -/
theorem Parse_board_priority :
    match1 (trimSpace ("B-1(x,y): <Fix> msg".toList))
      = some (("B-1".toList), ("x,y".toList), ("Fix".toList), ("msg".toList))
    ∧ Parse ("B-1(x,y): <Fix> msg".toList)
      = some { message := ("B-1(x,y): <Fix> msg".toList), type := ("Fix".toList),
               scope := ("x,y".toList), board := ("B-1".toList),
               description := ("msg".toList), forceMajor := false } := by
  constructor
  · decide
  · decide

/-- **C2.** `Parse` reports `force_major` exactly when the message contains
the literal substring `Breaking` or `BREAKING` anywhere (even inside the
description), or carries an explicit `!` force marker (`forceMarker`). -/
theorem Parse_forceMajor_iff (raw : List Char) :
    (parseC raw).forceMajor = true ↔
      (containsSub raw ("Breaking".toList) = true
        ∨ containsSub raw ("BREAKING".toList) = true
        ∨ forceMarker raw = true) := by
  have hB : containsSub (trimSpace raw) ("Breaking".toList)
      = containsSub raw ("Breaking".toList) :=
    containsSub_trim (by decide) (by decide)
  have hBB : containsSub (trimSpace raw) ("BREAKING".toList)
      = containsSub raw ("BREAKING".toList) :=
    containsSub_trim (by decide) (by decide)
  have hmain : (parseC raw).forceMajor
      = (breakingScan (trimSpace raw) || forceMarker raw) := by
    unfold parseC forceMarker
    cases h1 : match1 (trimSpace raw) with
    | some x => simp [h1]
    | none =>
      cases h2 : match2 (trimSpace raw) with
      | some x =>
        obtain ⟨bd, sc, ty, d⟩ := x
        simp [h1, h2]
      | none =>
        cases h3 : match3 (trimSpace raw) with
        | some x =>
          obtain ⟨bd, ty, d⟩ := x
          simp [h1, h2, h3]
        | none =>
          cases h4 : match4 (trimSpace raw) with
          | some x =>
            obtain ⟨ty, fc, sc, d⟩ := x
            simp [h1, h2, h3, h4]
          | none =>
            cases h5 : splitFirstColon (trimSpace raw) with
            | some lr =>
              obtain ⟨l, r⟩ := lr
              by_cases hb : ['!'].isSuffixOf (trimSpace l) = true
              · simp [h1, h2, h3, h4, h5, hb]
              · simp [h1, h2, h3, h4, h5, hb]
            | none => simp [h1, h2, h3, h4, h5]
  rw [hmain]
  unfold breakingScan
  rw [hB, hBB]
  simp [Bool.or_eq_true, or_assoc]

/-- **C6.** When none of the four patterns matches the trimmed message,
`Parse` still succeeds: with a colon present, the type is the trimmed text
before the first colon with one trailing `!` stripped (setting `force_major`
when stripped) and the description is the trimmed text after it; with no
colon, the record carries only what the `Breaking` scan set. -/
theorem Parse_fallback_behavior (raw : List Char)
    (h1 : match1 (trimSpace raw) = Option.none)
    (h2 : match2 (trimSpace raw) = Option.none)
    (h3 : match3 (trimSpace raw) = Option.none)
    (h4 : match4 (trimSpace raw) = Option.none) :
    (containsSub (trimSpace raw) [':'] = true →
      Parse raw = some
        { message := raw,
          type := stripOneBang (trimSpace ((trimSpace raw).takeWhile (fun c => !(c = ':')))),
          description := trimSpace (((trimSpace raw).dropWhile (fun c => !(c = ':'))).tail),
          forceMajor := breakingScan (trimSpace raw)
            || ['!'].isSuffixOf (trimSpace ((trimSpace raw).takeWhile (fun c => !(c = ':')))) })
    ∧ (containsSub (trimSpace raw) [':'] = false →
      Parse raw = some { message := raw, forceMajor := breakingScan (trimSpace raw) }) := by
  have hs := splitFirstColon_eq (trimSpace raw)
  constructor
  · intro hc
    rw [if_pos hc] at hs
    unfold Parse parseC stripOneBang
    by_cases hb :
        ['!'].isSuffixOf (trimSpace ((trimSpace raw).takeWhile (fun c => !(c = ':')))) = true
    · simp [h1, h2, h3, h4, hs, hb]
    · simp [h1, h2, h3, h4, hs, hb]
  · intro hc
    rw [if_neg (by simp [hc])] at hs
    unfold Parse parseC
    simp [h1, h2, h3, h4, hs]

/-! ### Helper lemmas for the `TYPE(SCOPE): DESC` round trip -/

lemma matchBoard_none_app {ty rest : List Char}
    (htyw : ∀ c ∈ ty, wordChar c = true) :
    matchBoard (ty ++ '(' :: rest) = Option.none := by
  unfold matchBoard
  by_cases hup : ((ty ++ '(' :: rest).takeWhile Char.isUpper).isEmpty = true
  · rw [if_pos hup]
  · rw [if_neg hup, List.dropWhile_append]
    by_cases hde : (ty.dropWhile Char.isUpper).isEmpty = true
    · rw [if_pos hde, List.dropWhile_cons_of_neg (by decide)]
      simp
    · rw [if_neg hde]
      cases hdw : ty.dropWhile Char.isUpper with
      | nil => rw [hdw] at hde; exact absurd rfl hde
      | cons x xs =>
        have hx : x ∈ ty := by
          refine List.IsSuffix.mem (List.mem_cons_self x xs) ?_
          rw [← hdw]
          exact List.dropWhile_suffix Char.isUpper
        have hxd : ¬(x = '-') := by
          intro hxe
          subst hxe
          exact absurd (htyw _ hx) (by decide)
        simp [hxd]

lemma match1_none_of_board {s : List Char} (h : matchBoard s = Option.none) :
    match1 s = Option.none := by
  unfold match1
  rw [h]

lemma match2_none_of_board {s : List Char} (h : matchBoard s = Option.none) :
    match2 s = Option.none := by
  unfold match2
  rw [h]

lemma match3_none_of_board {s : List Char} (h : matchBoard s = Option.none) :
    match3 s = Option.none := by
  unfold match3
  rw [h]

lemma match4_spec {ty scope desc : List Char}
    (hty : ty ≠ []) (htyw : ∀ c ∈ ty, wordChar c = true)
    (hsc : scope ≠ []) (hscp : ∀ c ∈ scope, c ≠ ')')
    (hd : desc ≠ []) (hdnl : ∀ c ∈ desc, c ≠ '\n') :
    match4 (ty ++ '(' :: (scope ++ ')' :: ':' :: ' ' :: desc))
      = some (ty, false, scope, desc) := by
  have htw : (ty ++ '(' :: (scope ++ ')' :: ':' :: ' ' :: desc)).takeWhile wordChar = ty :=
    takeWhile_app_all htyw
      (by intro c hc; rw [List.head?_cons, Option.some_inj] at hc; subst hc; decide)
  have hdw : (ty ++ '(' :: (scope ++ ')' :: ':' :: ' ' :: desc)).dropWhile wordChar
      = '(' :: (scope ++ ')' :: ':' :: ' ' :: desc) :=
    dropWhile_app_all htyw
      (by intro c hc; rw [List.head?_cons, Option.some_inj] at hc; subst hc; decide)
  have hst : (scope ++ ')' :: ':' :: ' ' :: desc).takeWhile (fun x => !(x = ')')) = scope :=
    takeWhile_app_all (fun c hc => by simp [hscp c hc])
      (by intro c hc; rw [List.head?_cons, Option.some_inj] at hc; subst hc; decide)
  have hsd : (scope ++ ')' :: ':' :: ' ' :: desc).dropWhile (fun x => !(x = ')'))
      = ')' :: ':' :: ' ' :: desc :=
    dropWhile_app_all (fun c hc => by simp [hscp c hc])
      (by intro c hc; rw [List.head?_cons, Option.some_inj] at hc; subst hc; decide)
  have hdall : desc.all (fun c => !(c = '\n')) = true := by
    rw [List.all_eq_true]
    intro c hc
    simp [hdnl c hc]
  have htyE : ty.isEmpty = false := by simp [List.isEmpty_iff, hty]
  have hscE : scope.isEmpty = false := by simp [List.isEmpty_iff, hsc]
  have hdE : desc.isEmpty = false := by simp [List.isEmpty_iff, hd]
  simp [match4, optScope, matchScopeParen, litColonSp, matchRestDesc,
    htw, hdw, hst, hsd, hdall, htyE, hscE, hdE]

/-- Witness for C6: `"my type!: hello"` matches no pattern (the space in the
type blocks pattern 4) and falls back to the colon split, stripping the
trailing `!`. -/
theorem Parse_fallback_behavior_witness :
    Parse ("my type!: hello".toList) = some
      { message := ("my type!: hello".toList), type := ("my type".toList),
        description := ("hello".toList), forceMajor := true } :=
  ((Parse_fallback_behavior _ (by decide) (by decide) (by decide) (by decide)).1
    (by decide)).trans (congrArg some (by decide))

/-- **C9.** For every well-formed `TYPE(SCOPE): DESC` input (nonempty word
type, nonempty `)`-free scope, nonempty newline-free description not ending
in whitespace), parsing and then rendering with `String` reproduces the same
type, scope and description content: the rendering is, in order, the type
(with `!` appended when `force_major` was set by the `Breaking` scan), the
scope in parentheses, and the description, space-joined.  The board part is
absent and therefore omitted. -/
theorem Parse_toString_roundtrip (ty scope desc : List Char)
    (hty : ty ≠ []) (htyw : ∀ c ∈ ty, wordChar c = true)
    (hsc : scope ≠ []) (hscp : ∀ c ∈ scope, c ≠ ')')
    (hd : desc ≠ []) (hdnl : ∀ c ∈ desc, c ≠ '\n')
    (hdlast : desc.getLast?.all (fun c => !(goSpace c)) = true) :
    parseC (ty ++ '(' :: (scope ++ ')' :: ':' :: ' ' :: desc))
      = { message := ty ++ '(' :: (scope ++ ')' :: ':' :: ' ' :: desc),
          type := ty, scope := scope, description := desc,
          forceMajor := breakingScan (ty ++ '(' :: (scope ++ ')' :: ':' :: ' ' :: desc)) }
    ∧ Commit.toString (parseC (ty ++ '(' :: (scope ++ ')' :: ':' :: ' ' :: desc)))
      = ty ++ (if breakingScan (ty ++ '(' :: (scope ++ ')' :: ':' :: ' ' :: desc))
            then ['!'] else [])
        ++ ' ' :: '(' :: (scope ++ ')' :: ' ' :: desc) := by
  have htrim : trimSpace (ty ++ '(' :: (scope ++ ')' :: ':' :: ' ' :: desc))
      = ty ++ '(' :: (scope ++ ')' :: ':' :: ' ' :: desc) := by
    apply trimSpace_eq_self
    · intro c hc
      obtain ⟨a, ty', rfl⟩ := List.exists_cons_of_ne_nil hty
      rw [List.cons_append, List.head?_cons, Option.some_inj] at hc
      subst hc
      exact wordChar_not_space (htyw _ (List.mem_cons_self _ _))
    · intro c hc
      have hsplit : ty ++ '(' :: (scope ++ ')' :: ':' :: ' ' :: desc)
          = (ty ++ '(' :: (scope ++ [')', ':', ' '])) ++ desc := by
        simp
      rw [hsplit, List.getLast?_append_of_ne_nil _ hd] at hc
      rw [hc] at hdlast
      simpa using hdlast
  have hb : matchBoard (ty ++ '(' :: (scope ++ ')' :: ':' :: ' ' :: desc)) = Option.none :=
    matchBoard_none_app htyw
  have h4 := match4_spec hty htyw hsc hscp hd hdnl
  have htyt : trimSpace ty = ty :=
    trimSpace_eq_self_of_all (fun c hc => wordChar_not_space (htyw c hc))
  have hrec : parseC (ty ++ '(' :: (scope ++ ')' :: ':' :: ' ' :: desc))
      = { message := ty ++ '(' :: (scope ++ ')' :: ':' :: ' ' :: desc),
          type := ty, scope := scope, description := desc,
          forceMajor := breakingScan (ty ++ '(' :: (scope ++ ')' :: ':' :: ' ' :: desc)) } := by
    simp [parseC, htrim, match1_none_of_board hb, match2_none_of_board hb,
      match3_none_of_board hb, h4, htyt]
  refine ⟨hrec, ?_⟩
  rw [hrec]
  have htyE : ty.isEmpty = false := by simp [List.isEmpty_iff, hty]
  have hscE : scope.isEmpty = false := by simp [List.isEmpty_iff, hsc]
  have hdE : desc.isEmpty = false := by simp [List.isEmpty_iff, hd]
  simp [Commit.toString, joinSpace, htyE, hscE, hdE]

/-- Witness for C9: `"Fix(auth): msg"` parses to `(Fix, auth, msg)` and
renders back as `"Fix (auth) msg"`. -/
theorem Parse_toString_roundtrip_witness :
    parseC ("Fix(auth): msg".toList)
      = { message := ("Fix(auth): msg".toList), type := ("Fix".toList),
          scope := ("auth".toList), description := ("msg".toList) }
    ∧ Commit.toString (parseC ("Fix(auth): msg".toList)) = ("Fix (auth) msg".toList) := by
  have h := Parse_toString_roundtrip ("Fix".toList) ("auth".toList) ("msg".toList)
    (by decide) (by decide) (by decide) (by decide) (by decide) (by decide) (by decide)
  exact ⟨h.1.trans (by decide), h.2.trans (by decide)⟩

end Commet
